import Mathlib

/-!
Verification of the sfsm repository: a shallow embedding of
(1) the runtime contract of `sfsm-base/src/lib.rs` and `sfsm-base/src/fallible.rs`,
(2) the state machine generated by the `add_state_machine` macro, as documented
    by the expansion in the doc comment of `sfsm-proc/src/lib.rs` (lines 35-106),
(3) the declaration parsers of `sfsm-proc/src/parsers.rs`.
-/

/-- Type `TransitGuard` from `sfsm-base/src/lib.rs`: the guard decision value. -/
inductive TransitGuard where
  | Remain
  | Transit
deriving DecidableEq

/-- Conversion `impl From<bool> for TransitGuard` from `sfsm-base/src/lib.rs`. -/
def TransitGuard.fromBool (transit : Bool) : TransitGuard :=
  if transit then TransitGuard.Transit else TransitGuard.Remain

/-- Observable hook invocations of a generated machine.  One event is recorded
per call of a `State` or `Transition` trait hook, in call order.  `V` is the
type of variant tags of the generated tagged union. -/
inductive Event (V : Type) where
  | stateEntry (v : V)
  | transEntry (v : V)
  | stateExecute (v : V)
  | transExecute (v : V)
  | guardCheck (v : V) (g : TransitGuard)
  | stateExit (v : V)
  | transExit (v : V)
  | convertInto (src dst : V)
deriving DecidableEq

/-- The user-supplied trait implementations driving one generated machine.
`trans v` is the declared outgoing transition of the state tagged `v`
(the generated dispatcher associates at most one destination per state branch,
as in the documented expansion).  `entry`/`execute`/`exit` are the `State`
trait hooks, `trans_entry`/`trans_execute`/`trans_exit`/`guard` the
`Transition::<Dst>` trait hooks, and `convert` the `Into<Dst>` conversion.
All hooks take and return the state data `D` (modelling `&mut self`). -/
structure SfsmSpec (V D : Type) where
  trans : V → Option V
  entry : V → D → D
  execute : V → D → D
  exit : V → D → D
  trans_entry : V → D → D
  trans_execute : V → D → D
  trans_exit : V → D → D
  guard : V → D → TransitGuard
  convert : V → D → D

/-- The generated machine struct (`struct Elevator { states, do_entry }` in the
documented expansion).  The tagged union `states` is modelled as the pair of
the active variant tag and the owned state data. -/
structure Sfsm (V D : Type) where
  variant : V
  data : D
  do_entry : Bool
deriving DecidableEq

/-- Constructor `pub fn new(data) -> Self` of the documented expansion: store the data in
the initial variant with `do_entry: true`. -/
def Sfsm.new (v : V) (d : D) : Sfsm V D :=
  { variant := v, data := d, do_entry := true }

/-- Method `pub fn step(&mut self)` of the documented expansion, returning the updated
machine together with the list of hook events of this step.  A branch for a
state with a declared transition runs: (entry block when `do_entry`: state
entry, transition entry, clear flag), state execute, transition execute,
guard; on `Transit`: state exit, transition exit, conversion into the
destination, set `do_entry`.  A branch for a state with no transition runs
only the state-level entry (when pending) and execute. -/
def Sfsm.step (M : SfsmSpec V D) (m : Sfsm V D) : Sfsm V D × List (Event V) :=
  let v := m.variant
  match M.trans v with
  | some dst =>
    let ed := if m.do_entry then M.trans_entry v (M.entry v m.data) else m.data
    let eevs := if m.do_entry then [Event.stateEntry v, Event.transEntry v] else []
    let xd := M.trans_execute v (M.execute v ed)
    match M.guard v xd with
    | TransitGuard.Transit =>
      (⟨dst, M.convert v (M.trans_exit v (M.exit v xd)), true⟩,
       eevs ++ [Event.stateExecute v, Event.transExecute v,
                Event.guardCheck v TransitGuard.Transit,
                Event.stateExit v, Event.transExit v, Event.convertInto v dst])
    | TransitGuard.Remain =>
      (⟨v, xd, false⟩,
       eevs ++ [Event.stateExecute v, Event.transExecute v,
                Event.guardCheck v TransitGuard.Remain])
  | none =>
    let ed := if m.do_entry then M.entry v m.data else m.data
    let eevs := if m.do_entry then [Event.stateEntry v] else []
    (⟨v, M.execute v ed, false⟩, eevs ++ [Event.stateExecute v])

/-- Method `pub fn stop(mut self)` of the documented expansion: take the value out,
run the state-level exit and, when the state declares a transition, the
transition-level exit, and return the final tagged union. -/
def Sfsm.stop (M : SfsmSpec V D) (m : Sfsm V D) : (V × D) × List (Event V) :=
  let v := m.variant
  match M.trans v with
  | some _ =>
    ((v, M.trans_exit v (M.exit v m.data)), [Event.stateExit v, Event.transExit v])
  | none =>
    ((v, M.exit v m.data), [Event.stateExit v])

/-- Iterate `n` consecutive calls of `step`, with the concatenated event trace. -/
def Sfsm.run (M : SfsmSpec V D) (m : Sfsm V D) : Nat → Sfsm V D × List (Event V)
  | 0 => (m, [])
  | Nat.succ n =>
    let s := Sfsm.step M m
    let r := Sfsm.run M s.1 n
    (r.1, s.2 ++ r.2)

/-- Number of `State::entry` invocations of the state tagged `v` in a trace. -/
def entryCount [DecidableEq V] (v : V) (tr : List (Event V)) : Nat :=
  tr.countP fun e => match e with
    | Event.stateEntry w => w == v
    | _ => false

/-- Number of `State::exit` invocations of the state tagged `v` in a trace. -/
def exitCount [DecidableEq V] (v : V) (tr : List (Event V)) : Nat :=
  tr.countP fun e => match e with
    | Event.stateExit w => w == v
    | _ => false

/-- Number of conversions into the state tagged `v` in a trace, i.e. the number
of transitions that made `v` the active variant. -/
def transitsInto [DecidableEq V] (v : V) (tr : List (Event V)) : Nat :=
  tr.countP fun e => match e with
    | Event.convertInto _ w => w == v
    | _ => false

/-- 1 when `v` is the active variant of `m`. -/
def activeFlag [DecidableEq V] (m : Sfsm V D) (v : V) : Nat :=
  if m.variant = v then 1 else 0

/-- 1 when `v` is the active variant of `m` and its entry hook is still
pending (`do_entry` set). -/
def pendingFlag [DecidableEq V] (m : Sfsm V D) (v : V) : Nat :=
  if m.do_entry = true ∧ m.variant = v then 1 else 0

/-- Number of contiguous activations of the state tagged `v` in a run that
began in variant `v0` and produced the trace `tr`: the initial activation plus
one per conversion into `v`. -/
def activations [DecidableEq V] (v0 v : V) (tr : List (Event V)) : Nat :=
  (if v0 = v then 1 else 0) + transitsInto v tr

/-- The guard value computed by `step` on `m` when the active state declares a
transition: the guard is evaluated on the data after the entry block (when
pending) and both execute hooks. -/
def stepGuard (M : SfsmSpec V D) (m : Sfsm V D) : TransitGuard :=
  M.guard m.variant (M.trans_execute m.variant (M.execute m.variant
    (if m.do_entry then M.trans_entry m.variant (M.entry m.variant m.data) else m.data)))

/-- A concrete machine over two variants used to exercise the theorems:
`true` declares a transition to `false` whose guard always transits,
`false` declares no transition. -/
def demoSpec : SfsmSpec Bool Nat where
  trans := fun v => if v then some false else none
  entry := fun _ d => d + 1
  execute := fun _ d => d + 1
  exit := fun _ d => d + 1
  trans_entry := fun _ d => d + 1
  trans_execute := fun _ d => d + 1
  trans_exit := fun _ d => d + 1
  guard := fun _ _ => TransitGuard.Transit
  convert := fun _ d => d

/-- A concrete machine with no declared transitions. -/
def noTransSpec : SfsmSpec Bool Nat where
  trans := fun _ => none
  entry := fun _ d => d + 1
  execute := fun _ d => d + 1
  exit := fun _ d => d + 1
  trans_entry := fun _ d => d
  trans_execute := fun _ d => d
  trans_exit := fun _ d => d
  guard := fun _ _ => TransitGuard.Remain
  convert := fun _ d => d

/-- A concrete machine whose transition guard always remains. -/
def remainSpec : SfsmSpec Bool Nat where
  trans := fun v => if v then some false else none
  entry := fun _ d => d + 1
  execute := fun _ d => d + 1
  exit := fun _ d => d + 1
  trans_entry := fun _ d => d + 1
  trans_execute := fun _ d => d + 1
  trans_exit := fun _ d => d + 1
  guard := fun _ _ => TransitGuard.Remain
  convert := fun _ d => d

/-- Rust `str::replace(s, pat, "")` for a single-character pattern `pat`:
every occurrence of the character is removed. -/
def replaceChar (s : String) (c : Char) : String :=
  String.mk (s.data.filter fun x => !(x == c))

/-- The eight replacements of `State::state_to_enum` (parsers.rs lines 16-23),
applied in source order: apostrophe, `<`, `>`, `&`, space, `,`, `]`, `[`.
`Char.ofNat 39` is the apostrophe. -/
def stripArgChars (s : String) : String :=
  replaceChar (replaceChar (replaceChar (replaceChar (replaceChar (replaceChar
    (replaceChar (replaceChar s (Char.ofNat 39)) '<') '>') '&') ' ') ',') ']') '['

/-- The characters stripped from the rendered argument text, as a set. -/
def strippedChars : List Char :=
  [Char.ofNat 39, '<', '>', '&', ' ', ',', ']', '[']

/-- Modelled from the spec: word splitting of the external identifier
case-conversion utility (spec section 6; `to_case(Case::Pascal)` of the
convert_case crate, which is not part of this repository).  The text is split
into words at `_`, `-` and space delimiters and at case boundaries: a
lowercase letter followed by an uppercase one, or the last capital of an
acronym (an uppercase letter followed by an uppercase letter that is itself
followed by a lowercase one).  `cur` is the current word, reversed. -/
def splitWords (cur : List Char) : List Char → List (List Char)
  | [] => if cur = [] then [] else [cur.reverse]
  | c :: rest =>
    if c = '_' ∨ c = '-' ∨ c = ' ' then
      (if cur = [] then [] else [cur.reverse]) ++ splitWords [] rest
    else
      match cur with
      | [] => splitWords [c] rest
      | p :: _ =>
        if (p.isLower && c.isUpper)
            || (p.isUpper && c.isUpper && (match rest with
                | r :: _ => r.isLower
                | [] => false)) then
          cur.reverse :: splitWords [c] rest
        else
          splitWords (c :: cur) rest

/-- Modelled from the spec: capitalization of one word in the PascalCase
transform: first character uppercased, the rest lowercased. -/
def capitalizeWord : List Char → List Char
  | [] => []
  | c :: cs => c.toUpper :: cs.map Char.toLower

/-- Modelled from the spec: the PascalCase conversion applied by
`state_to_enum` (spec sections 4.3 and 6), external to the repository. -/
def toPascal (s : String) : String :=
  String.mk (((splitWords [] s.data).map capitalizeWord).flatten)

/-- Function `State::state_to_enum` from parsers.rs lines 13-30.  `types` is the
generic-argument list rendered to text (the Rust code renders the
`AngleBracketedGenericArguments` token stream to a string before stripping);
`none` models a state without a parameter list. -/
def state_to_enum (name : String) (types : Option String) : String :=
  let args_string :=
    match types with
    | some args => toPascal (stripArgChars args)
    | none => ""
  name ++ args_string ++ "State"

/-- Function `Machine::enum_name` from parsers.rs lines 74-77. -/
def machine_enum_name (sfsm_name : String) : String :=
  sfsm_name ++ "States"

/-- Tokens of the declaration grammar: the boundary model of the proc-macro
token stream consumed by the parsers — identifiers, the puncts `<` `>` `=`
`-` `,`, and bracketed groups.  Spacing of puncts is not modelled: syn's
single-punct token parsers accept a punct regardless of its spacing (which is
what lets `Transition::parse` read `=>` as `=` then `>`). -/
inductive Tok where
  | ident (s : String)
  | lt
  | gt
  | eq
  | minus
  | comma
  | group (ts : List Tok)

/-- A parsed `State` of types.rs as built by `State::parse`: base name,
rendered generic-argument text, synthesized enum entry name.  `State::parse`
always constructs the struct with `transits: vec![]`, and endpoints of parsed
transitions keep it empty, so the `transits` field filled in by
`Machine::parse` is carried separately (see `buildStates`). -/
structure StateS where
  name : String
  generics : Option String
  enum_name : String
deriving DecidableEq

/-- A parsed `Transition` of types.rs. -/
structure TransitionS where
  src : StateS
  dst : StateS
deriving DecidableEq

/-- Rendering of a parsed angle-bracketed argument list back to text, as the
proc_macro2 token-stream display does (space-separated tokens). -/
def renderArgs (args : List String) : String :=
  "< " ++ String.intercalate " , " args ++ " >"

/-- The `AngleBracketedGenericArguments` parse of syn (simplified to
identifier arguments), starting after the consumed `<`.  syn streams do not
backtrack: on failure the consumed prefix stays consumed, so the remainder at
the failure point is returned in both outcomes. -/
def parseAngleArgs : List Tok → Option (List String) × List Tok
  | Tok.gt :: rest => (some [], rest)
  | Tok.ident a :: Tok.gt :: rest => (some [a], rest)
  | Tok.ident a :: Tok.comma :: rest =>
    (match parseAngleArgs rest with
     | (some args, rest2) => (some (a :: args), rest2)
     | (none, rest2) => (none, rest2))
  | Tok.ident _ :: rest => (none, rest)
  | rest => (none, rest)

/-- Parser `impl Parse for State` (parsers.rs lines 35-55): parse an identifier;
when the next token is `<`, attempt `AngleBracketedGenericArguments` with
`.ok()` — a failed attempt leaves the stream at the failure point and the
state simply has no generics.  The enum entry name is synthesized during the
parse. -/
def parseState : List Tok → Option (StateS × List Tok)
  | Tok.ident n :: Tok.lt :: rest =>
    (match parseAngleArgs rest with
     | (some args, rest2) =>
       some ({ name := n, generics := some (renderArgs args),
               enum_name := state_to_enum n (some (renderArgs args)) }, rest2)
     | (none, rest2) =>
       some ({ name := n, generics := none, enum_name := state_to_enum n none }, rest2))
  | Tok.ident n :: rest =>
    some ({ name := n, generics := none, enum_name := state_to_enum n none }, rest)
  | _ => none

/-- Parser `impl Parse for Transition` (parsers.rs lines 59-71): source state, the
token `=`, the token `>`, destination state. -/
def parseTransition (toks : List Tok) : Option (TransitionS × List Tok) :=
  match parseState toks with
  | some (src, Tok.eq :: Tok.gt :: rest) =>
    (match parseState rest with
     | some (dst, rest2) => some ({ src := src, dst := dst }, rest2)
     | none => none)
  | _ => none

/-- A complete parse of a single transition: `Transition::parse` followed by
the end of the input, as `Punctuated::parse_terminated` requires for a
one-element transition list. -/
def parseTransitionComplete (toks : List Tok) : Option TransitionS :=
  match parseTransition toks with
  | some (t, []) => some t
  | _ => none

/-- Parse of `Punctuated::<State, Token![,]>::parse_terminated`, fuelled by the input
length (each element consumes at least one token, so the fuel suffices). -/
def parseStateListF : Nat → List Tok → Option (List StateS)
  | _, [] => some []
  | 0, _ => none
  | Nat.succ fuel, toks =>
    match parseState toks with
    | some (s, []) => some [s]
    | some (s, Tok.comma :: rest) =>
      (match parseStateListF fuel rest with
       | some ss => some (s :: ss)
       | none => none)
    | _ => none

/-- Parse of `Punctuated::<State, Token![,]>::parse_terminated` on a group's stream. -/
def parseStateList (toks : List Tok) : Option (List StateS) :=
  parseStateListF toks.length toks

/-- Parse of `Punctuated::<Transition, Token![,]>::parse_terminated`, fuelled. -/
def parseTransitionListF : Nat → List Tok → Option (List TransitionS)
  | _, [] => some []
  | 0, _ => none
  | Nat.succ fuel, toks =>
    match parseTransition toks with
    | some (t, []) => some [t]
    | some (t, Tok.comma :: rest) =>
      (match parseTransitionListF fuel rest with
       | some ts => some (t :: ts)
       | none => none)
    | _ => none

/-- Parse of `Punctuated::<Transition, Token![,]>::parse_terminated` on a group. -/
def parseTransitionList (toks : List Tok) : Option (List TransitionS) :=
  parseTransitionListF toks.length toks

/-- The construction of the validated state list inside `Machine::parse`
(parsers.rs lines 110-123): each declared state is paired with the
destinations of exactly those parsed transitions whose source `enum_name`
equals the state's `enum_name`.  Nothing else is checked. -/
def buildStates (states_names : List StateS) (transitions : List TransitionS) :
    List (StateS × List StateS) :=
  states_names.map fun state =>
    (state,
     (transitions.filter fun trans => trans.src.enum_name == state.enum_name).map
       fun trans => trans.dst)

/-- A parsed `Machine` of types.rs (attributes and visibility, empty in all
inputs considered here, are not modelled). -/
structure MachineS where
  name : String
  init : StateS
  states : List (StateS × List StateS)
  enum_name : String
deriving DecidableEq

/-- Parser `impl Parse for Machine` (parsers.rs lines 82-136): name, comma, initial
state, comma, a group of comma-separated states, comma, a group of
comma-separated transitions; `parse_macro_input` requires the whole input to
be consumed.  Beyond the source-name filtering of `buildStates`, no
validation relates the initial state or the transition endpoints to the
declared state list. -/
def parseMachine : List Tok → Option MachineS
  | Tok.ident name :: Tok.comma :: rest =>
    (match parseState rest with
     | some (init, Tok.comma :: Tok.group stoks :: Tok.comma :: Tok.group ttoks :: []) =>
       (match parseStateList stoks, parseTransitionList ttoks with
        | some states_names, some transitions =>
          some { name := name, init := init,
                 states := buildStates states_names transitions,
                 enum_name := machine_enum_name name }
        | _, _ => none)
     | _ => none)
  | _ => none

/-- Type `MessageError` from sfsm-base/src/lib.rs lines 112-115. -/
inductive MessageError (Msg : Type) where
  | StateIsNotActive (msg : Msg)
deriving DecidableEq

/-- Modelled from the spec: the generated `push_message` entry point (spec
section 4.4) — the dispatcher generator that emits it is not among the
sources; only the `ForwardPushMessage` trait and `MessageError`
(sfsm-base/src/lib.rs lines 112-127) are.  Push matches the active variant:
when it is the bound state, the message is forwarded to the state's receive
capability and the call succeeds; otherwise the machine is untouched and the
failure carries the original message. -/
def push_message [DecidableEq V] (bound : V) (receive : D → Msg → D)
    (m : Sfsm V D) (msg : Msg) : Sfsm V D × Except (MessageError Msg) Unit :=
  if m.variant = bound then
    ({ m with data := receive m.data msg }, Except.ok ())
  else
    (m, Except.error (MessageError.StateIsNotActive msg))

namespace TryState

/-- Default body of `TryState::try_entry` (sfsm-base/src/fallible.rs line 19):
`Ok(())`, the state untouched.  The pair models `(&mut self, Result)`. -/
def try_entry (S E : Type) (s : S) : S × Except E Unit :=
  (s, Except.ok ())

/-- Default body of `TryState::try_execute` (fallible.rs line 20). -/
def try_execute (S E : Type) (s : S) : S × Except E Unit :=
  (s, Except.ok ())

/-- Default body of `TryState::try_exit` (fallible.rs line 21). -/
def try_exit (S E : Type) (s : S) : S × Except E Unit :=
  (s, Except.ok ())

end TryState

namespace TryTransition

/-- Default body of `TryTransition::try_entry` (fallible.rs line 27). -/
def try_entry (S E : Type) (s : S) : S × Except E Unit :=
  (s, Except.ok ())

/-- Default body of `TryTransition::try_execute` (fallible.rs line 28). -/
def try_execute (S E : Type) (s : S) : S × Except E Unit :=
  (s, Except.ok ())

/-- Default body of `TryTransition::try_exit` (fallible.rs line 29). -/
def try_exit (S E : Type) (s : S) : S × Except E Unit :=
  (s, Except.ok ())

end TryTransition


/-- A complete parse of a single state: `State::parse` followed by the end of
the input. -/
def parseStateComplete (toks : List Tok) : Option StateS :=
  match parseState toks with
  | some (st, []) => some st
  | _ => none

/-- The parsed state `Foo`. -/
def fooS : StateS := { name := "Foo", generics := none, enum_name := "FooState" }

/-- The parsed state `Bar`. -/
def barS : StateS := { name := "Bar", generics := none, enum_name := "BarState" }

/-- The parsed state `Baz`. -/
def bazS : StateS := { name := "Baz", generics := none, enum_name := "BazState" }

/-- The parsed state `Foo<Bar>`: rendered parameter text `< Bar >`. -/
def fooBarGenS : StateS :=
  { name := "Foo", generics := some "< Bar >", enum_name := "FooBarState" }

/-- The parsed state `FooBar` (no parameter list). -/
def fooBarFlatS : StateS :=
  { name := "FooBar", generics := none, enum_name := "FooBarState" }


/-- C1: within one `step` on a state with a declared outgoing transition, the
hooks run in exactly the order state-entry, transition-entry (both only when
the pending-entry flag is set), state-execute, transition-execute, guard,
and, when the guard returns `Transit`, state-exit, transition-exit, then the
conversion into the destination. -/
theorem c1_hook_order (M : SfsmSpec V D) (m : Sfsm V D) (dst : V)
    (h : M.trans m.variant = some dst) :
    (Sfsm.step M m).2 =
      (if m.do_entry then [Event.stateEntry m.variant, Event.transEntry m.variant] else [])
      ++ [Event.stateExecute m.variant, Event.transExecute m.variant,
          Event.guardCheck m.variant (stepGuard M m)]
      ++ (if stepGuard M m = TransitGuard.Transit
          then [Event.stateExit m.variant, Event.transExit m.variant,
                Event.convertInto m.variant dst]
          else []) := by
  simp only [Sfsm.step, stepGuard, h]
  split <;> rename_i hg <;> simp [hg]

/-- Witness for C1 at a concrete machine and input. -/
theorem c1_hook_order_witness :
    (Sfsm.step demoSpec (Sfsm.new true 0)).2 =
      [Event.stateEntry true, Event.transEntry true, Event.stateExecute true,
       Event.transExecute true, Event.guardCheck true TransitGuard.Transit,
       Event.stateExit true, Event.transExit true, Event.convertInto true false] := by
  have h := c1_hook_order demoSpec (Sfsm.new true 0) false rfl
  simpa [demoSpec, stepGuard, Sfsm.new] using h

/-- Auxiliary: a machine whose active state declares no outgoing transition
keeps its active variant across any number of steps. -/
theorem run_variant_stable (M : SfsmSpec V D) :
    ∀ (n : Nat) (m : Sfsm V D), M.trans m.variant = none →
      (Sfsm.run M m n).1.variant = m.variant := by
  intro n
  induction n with
  | zero => intro m _; rfl
  | succ k ih =>
    intro m h
    have hv : (Sfsm.step M m).1.variant = m.variant := by
      simp [Sfsm.step, h]
    have : (Sfsm.run M m (Nat.succ k)).1 = (Sfsm.run M (Sfsm.step M m).1 k).1 := rfl
    rw [this, ih _ (by rw [hv, h]), hv]

/-- C2: a `step` on an active state with no declared outgoing transition, or
whose guard returned `Remain`, leaves the active variant unchanged; and
repeated steps on a state with no declared outgoing transition never change
the active variant. -/
theorem c2_variant_stable (M : SfsmSpec V D) (m : Sfsm V D) :
    (M.trans m.variant = none → (Sfsm.step M m).1.variant = m.variant)
  ∧ (Event.guardCheck m.variant TransitGuard.Remain ∈ (Sfsm.step M m).2 →
      (Sfsm.step M m).1.variant = m.variant)
  ∧ (M.trans m.variant = none → ∀ n, (Sfsm.run M m n).1.variant = m.variant) := by
  refine ⟨fun h => by simp [Sfsm.step, h], ?_, fun h n => run_variant_stable M n m h⟩
  simp only [Sfsm.step]
  split
  · split
    · intro hmem
      cases hDE : m.do_entry <;> simp [hDE] at hmem
    · intro _
      rfl
  · intro _
    rfl

/-- Witness for C2 at concrete machines and inputs. -/
theorem c2_variant_stable_witness :
    (Sfsm.step noTransSpec (Sfsm.new true 0)).1.variant = true
  ∧ (Sfsm.step remainSpec (Sfsm.new true 0)).1.variant = true
  ∧ (Sfsm.run noTransSpec (Sfsm.new true 0) 5).1.variant = true :=
  ⟨(c2_variant_stable noTransSpec (Sfsm.new true 0)).1 rfl,
   (c2_variant_stable remainSpec (Sfsm.new true 0)).2.1 (by decide),
   (c2_variant_stable noTransSpec (Sfsm.new true 0)).2.2 rfl 5⟩

/-- One step conserves the entry ledger: entries recorded in the step plus the
pending entry left after it equal the entry that was pending before it plus
the activations (conversions into `v`) the step produced. -/
theorem step_entry_balance [DecidableEq V] (M : SfsmSpec V D) (m : Sfsm V D) (v : V) :
    entryCount v (Sfsm.step M m).2 + pendingFlag (Sfsm.step M m).1 v
      = pendingFlag m v + transitsInto v (Sfsm.step M m).2 := by
  simp only [Sfsm.step]
  split
  · rename_i dst _
    split <;>
      (cases hDE : m.do_entry <;> by_cases hv : m.variant = v <;> by_cases hd : dst = v <;>
        simp [entryCount, pendingFlag, transitsInto, hDE, hv, hd])
  · cases hDE : m.do_entry <;> by_cases hv : m.variant = v <;>
      simp [entryCount, pendingFlag, transitsInto, hDE, hv]

/-- One step conserves the exit ledger: exits recorded in the step plus the
activation of `v` after it equal the activation of `v` before it plus the
conversions into `v` the step produced. -/
theorem step_exit_balance [DecidableEq V] (M : SfsmSpec V D) (m : Sfsm V D) (v : V) :
    exitCount v (Sfsm.step M m).2 + activeFlag (Sfsm.step M m).1 v
      = activeFlag m v + transitsInto v (Sfsm.step M m).2 := by
  simp only [Sfsm.step]
  split
  · rename_i dst _
    split <;>
      (cases hDE : m.do_entry <;> by_cases hv : m.variant = v <;> by_cases hd : dst = v <;>
        simp [exitCount, activeFlag, transitsInto, hDE, hv, hd])
  · cases hDE : m.do_entry <;> by_cases hv : m.variant = v <;>
      simp [exitCount, activeFlag, transitsInto, hDE, hv]

/-- The entry ledger of `step_entry_balance`, composed over a whole run. -/
theorem run_entry_balance [DecidableEq V] (M : SfsmSpec V D) (v : V) :
    ∀ (n : Nat) (m : Sfsm V D),
      entryCount v (Sfsm.run M m n).2 + pendingFlag (Sfsm.run M m n).1 v
        = pendingFlag m v + transitsInto v (Sfsm.run M m n).2 := by
  intro n
  induction n with
  | zero => intro m; simp [Sfsm.run, entryCount, transitsInto]
  | succ k ih =>
    intro m
    have hstep := step_entry_balance M m v
    have hrec := ih (Sfsm.step M m).1
    have hrw : Sfsm.run M m (Nat.succ k)
        = ((Sfsm.run M (Sfsm.step M m).1 k).1,
           (Sfsm.step M m).2 ++ (Sfsm.run M (Sfsm.step M m).1 k).2) := rfl
    rw [hrw]
    simp only [entryCount, transitsInto, List.countP_append] at *
    omega

/-- The exit ledger of `step_exit_balance`, composed over a whole run. -/
theorem run_exit_balance [DecidableEq V] (M : SfsmSpec V D) (v : V) :
    ∀ (n : Nat) (m : Sfsm V D),
      exitCount v (Sfsm.run M m n).2 + activeFlag (Sfsm.run M m n).1 v
        = activeFlag m v + transitsInto v (Sfsm.run M m n).2 := by
  intro n
  induction n with
  | zero => intro m; simp [Sfsm.run, exitCount, transitsInto]
  | succ k ih =>
    intro m
    have hstep := step_exit_balance M m v
    have hrec := ih (Sfsm.step M m).1
    have hrw : Sfsm.run M m (Nat.succ k)
        = ((Sfsm.run M (Sfsm.step M m).1 k).1,
           (Sfsm.step M m).2 ++ (Sfsm.run M (Sfsm.step M m).1 k).2) := rfl
    rw [hrw]
    simp only [exitCount, transitsInto, List.countP_append] at *
    omega

/-- A `stop` records no entry and no conversion, and exactly one exit, namely of
the active variant. -/
theorem stop_counts [DecidableEq V] (M : SfsmSpec V D) (m : Sfsm V D) (v : V) :
    entryCount v (Sfsm.stop M m).2 = 0
  ∧ transitsInto v (Sfsm.stop M m).2 = 0
  ∧ exitCount v (Sfsm.stop M m).2 = activeFlag m v := by
  simp only [Sfsm.stop]
  split <;> by_cases hv : m.variant = v <;>
    simp [entryCount, transitsInto, exitCount, activeFlag, hv]

/-- In a step taken with the pending-entry flag set, the state-level entry is
the very first hook and a state-level execute follows it. -/
theorem step_entry_first (M : SfsmSpec V D) (m : Sfsm V D) (h : m.do_entry = true) :
    ∃ l, (Sfsm.step M m).2 = Event.stateEntry m.variant :: l
      ∧ Event.stateExecute m.variant ∈ l := by
  simp only [Sfsm.step, h, if_true]
  split
  · split <;> exact ⟨_, rfl, by simp⟩
  · exact ⟨_, rfl, by simp⟩

/-- In a step taken with the pending-entry flag clear, no entry hook runs. -/
theorem step_no_entry (M : SfsmSpec V D) (m : Sfsm V D) (h : m.do_entry = false) (u : V) :
    Event.stateEntry u ∉ (Sfsm.step M m).2 := by
  simp only [Sfsm.step, h]
  split
  · split <;> simp
  · simp

/-- C3 (amended): over any run `new`, `step`^n, `stop`, the exit hook of each
state runs exactly once per contiguous activation (transitions and `stop` both
close the current activation), and the entry hook runs exactly once per
contiguous activation except for a final activation that never saw a step
(whose pending-entry flag is still set): such an activation is stopped without
its entry ever running.  Moreover in the first step of an activation the
state-level entry is the first hook and a state-level execute follows it, and
no entry hook runs in later steps of the activation. -/
theorem c3_entry_exit_balance [DecidableEq V] (M : SfsmSpec V D) (v0 : V) (d : D)
    (n : Nat) (v : V) :
    exitCount v ((Sfsm.run M (Sfsm.new v0 d) n).2
        ++ (Sfsm.stop M (Sfsm.run M (Sfsm.new v0 d) n).1).2)
      = activations v0 v (Sfsm.run M (Sfsm.new v0 d) n).2
  ∧ entryCount v ((Sfsm.run M (Sfsm.new v0 d) n).2
        ++ (Sfsm.stop M (Sfsm.run M (Sfsm.new v0 d) n).1).2)
        + pendingFlag (Sfsm.run M (Sfsm.new v0 d) n).1 v
      = activations v0 v (Sfsm.run M (Sfsm.new v0 d) n).2
  ∧ (∀ m : Sfsm V D, m.do_entry = true →
      ∃ l, (Sfsm.step M m).2 = Event.stateEntry m.variant :: l
        ∧ Event.stateExecute m.variant ∈ l)
  ∧ (∀ (m : Sfsm V D) (u : V), m.do_entry = false →
      Event.stateEntry u ∉ (Sfsm.step M m).2) := by
  have hrunE := run_entry_balance M v n (Sfsm.new v0 d)
  have hrunX := run_exit_balance M v n (Sfsm.new v0 d)
  have hstop := stop_counts M (Sfsm.run M (Sfsm.new v0 d) n).1 v
  have hact : activeFlag (Sfsm.new v0 d) v = if v0 = v then 1 else 0 := by
    simp [activeFlag, Sfsm.new]
  have hpend : pendingFlag (Sfsm.new v0 d) v = if v0 = v then 1 else 0 := by
    simp [pendingFlag, Sfsm.new]
  refine ⟨?_, ?_, fun m h => step_entry_first M m h, fun m u h => step_no_entry M m h u⟩ <;>
    (obtain ⟨hs1, hs2, hs3⟩ := hstop
     simp only [entryCount, exitCount, transitsInto, activations, List.countP_append] at *
     omega)

/-- C3 counterexample: start `noTransSpec` in variant `true` and stop it after
zero steps.  The state `true` has one contiguous activation, yet its entry
hook runs zero times (while its exit hook does run), so the entry hook does
not run exactly once per contiguous activation. -/
theorem c3_counterexample :
    ¬ (entryCount true ((Sfsm.run noTransSpec (Sfsm.new true 0) 0).2
          ++ (Sfsm.stop noTransSpec (Sfsm.run noTransSpec (Sfsm.new true 0) 0).1).2)
        = activations true true (Sfsm.run noTransSpec (Sfsm.new true 0) 0).2) := by
  decide

/-- Witness for C3 (amended) at a concrete machine and run. -/
theorem c3_entry_exit_balance_witness :
    exitCount true ((Sfsm.run demoSpec (Sfsm.new true 0) 2).2
        ++ (Sfsm.stop demoSpec (Sfsm.run demoSpec (Sfsm.new true 0) 2).1).2)
      = activations true true (Sfsm.run demoSpec (Sfsm.new true 0) 2).2
  ∧ (∃ l, (Sfsm.step demoSpec (Sfsm.new true 0)).2 = Event.stateEntry true :: l
        ∧ Event.stateExecute true ∈ l) :=
  ⟨(c3_entry_exit_balance demoSpec true 0 2 true).1,
   (c3_entry_exit_balance demoSpec true 0 2 true).2.2.1 (Sfsm.new true 0) rfl⟩

/-- The sequential single-character replacements of `state_to_enum` remove
exactly the characters of `strippedChars`. -/
theorem stripArgChars_eq_filter (s : String) :
    stripArgChars s = String.mk (s.data.filter fun c => !(strippedChars.contains c)) := by
  unfold stripArgChars replaceChar
  simp only [List.filter_filter]
  congr 1
  apply List.filter_congr
  intro a _
  by_cases h : a ∈ strippedChars
  · fin_cases h <;> rfl
  · simp only [strippedChars, List.mem_cons, List.not_mem_nil, or_false, not_or] at h
    obtain ⟨h1, h2, h3, h4, h5, h6, h7, h8⟩ := h
    simp [strippedChars, h1, h2, h3, h4, h5, h6, h7, h8]

/-- C4 counterexample: in the declaration `M, Foo, [Foo], [Foo => Bar]` the
transition's destination `Bar` is not an element of the declared state list
`[Foo]`, yet parsing succeeds and the transition is retained in `Foo`'s
outgoing list instead of being excluded. -/
theorem c4_counterexample :
    parseMachine [Tok.ident "M", Tok.comma, Tok.ident "Foo", Tok.comma,
        Tok.group [Tok.ident "Foo"], Tok.comma,
        Tok.group [Tok.ident "Foo", Tok.eq, Tok.gt, Tok.ident "Bar"]]
      = some { name := "M", init := fooS, states := [(fooS, [barS])],
               enum_name := "MStates" }
  ∧ barS ∉ [fooS] := by
  decide

/-- C4 (amended): every destination retained in a state's outgoing list comes
from a parsed transition whose source `enum_name` equals that state's
`enum_name` — hence a transition whose source matches no declared state
appears in no outgoing list, silently, while parsing succeeds; destination
endpoints are not validated at all (see the counterexample). -/
theorem c4_transition_filtering (states_names : List StateS) (ts : List TransitionS)
    (p : StateS × List StateS) (hp : p ∈ buildStates states_names ts) (d : StateS)
    (hd : d ∈ p.2) :
    ∃ t ∈ ts, t.src.enum_name = p.1.enum_name ∧ t.dst = d := by
  simp only [buildStates, List.mem_map] at hp
  obtain ⟨st, hst, rfl⟩ := hp
  simp only [List.mem_map, List.mem_filter] at hd
  obtain ⟨t, ⟨ht, hsrc⟩, rfl⟩ := hd
  exact ⟨t, ht, by simpa using hsrc, rfl⟩

/-- Witness for C4 (amended) at a concrete graph. -/
theorem c4_transition_filtering_witness :
    ∃ t ∈ [({ src := fooS, dst := barS } : TransitionS)],
      t.src.enum_name = fooS.enum_name ∧ t.dst = barS :=
  c4_transition_filtering [fooS] [{ src := fooS, dst := barS }] (fooS, [barS])
    (by decide) barS (by decide)

/-- C5 counterexample: the declaration `M, Baz, [Foo], []` parses
successfully although its initial state `Baz` is not an element of the
declared state list `[Foo]`: the initial StateRef is not validated. -/
theorem c5_counterexample :
    parseMachine [Tok.ident "M", Tok.comma, Tok.ident "Baz", Tok.comma,
        Tok.group [Tok.ident "Foo"], Tok.comma, Tok.group []]
      = some { name := "M", init := bazS, states := [(fooS, [])],
               enum_name := "MStates" }
  ∧ bazS ∉ [fooS] := by
  decide

/-- C5 (amended): every entry of the validated state list is one of the
declared states, and every retained destination comes from a transition whose
source matches, by `enum_name`, a declared state; the initial StateRef and
the destination endpoints are not validated against the declared state list
(see the counterexample). -/
theorem c5_graph_membership (states_names : List StateS) (ts : List TransitionS)
    (p : StateS × List StateS) (hp : p ∈ buildStates states_names ts) :
    p.1 ∈ states_names
  ∧ ∀ d ∈ p.2, ∃ s ∈ states_names, ∃ t ∈ ts,
      t.src.enum_name = s.enum_name ∧ t.dst = d := by
  simp only [buildStates, List.mem_map] at hp
  obtain ⟨st, hst, rfl⟩ := hp
  refine ⟨hst, ?_⟩
  intro d hd
  simp only [List.mem_map, List.mem_filter] at hd
  obtain ⟨t, ⟨ht, hsrc⟩, rfl⟩ := hd
  exact ⟨st, hst, t, ht, by simpa using hsrc, rfl⟩

/-- Witness for C5 (amended) at a concrete graph. -/
theorem c5_graph_membership_witness :
    fooS ∈ [fooS]
  ∧ ∀ d ∈ [barS], ∃ s ∈ [fooS], ∃ t ∈ [({ src := fooS, dst := barS } : TransitionS)],
      t.src.enum_name = s.enum_name ∧ t.dst = d :=
  c5_graph_membership [fooS] [{ src := fooS, dst := barS }] (fooS, [barS]) (by decide)

/-- C6 counterexample: the StateRefs `Foo<Bar>` and `FooBar` render
differently (different base name and parameter list) yet synthesize the same
`enum_name` `FooBarState`, and `Machine::parse`'s matching attaches a
transition with source `FooBar` to the declared state `Foo<Bar>`: StateRefs
whose renderings differ can be conflated. -/
theorem c6_counterexample :
    parseStateComplete [Tok.ident "Foo", Tok.lt, Tok.ident "Bar", Tok.gt]
      = some fooBarGenS
  ∧ parseStateComplete [Tok.ident "FooBar"] = some fooBarFlatS
  ∧ (fooBarGenS.name, fooBarGenS.generics) ≠ (fooBarFlatS.name, fooBarFlatS.generics)
  ∧ fooBarGenS.enum_name = fooBarFlatS.enum_name
  ∧ buildStates [fooBarGenS] [{ src := fooBarFlatS, dst := fooBarGenS }]
      = [(fooBarGenS, [fooBarGenS])] := by
  decide

/-- C6 (amended): the parser's matching is by the synthesized `enum_name`
alone.  Parsed StateRefs with identical base name and parameter rendering
always receive the same `enum_name` and are therefore treated as the same
state by the transition filtering; the converse fails, since distinct
renderings may synthesize colliding enum names (see the counterexample). -/
theorem c6_rendering_determines_matching (s t : StateS) (ts : List TransitionS)
    (hs : s.enum_name = state_to_enum s.name s.generics)
    (ht : t.enum_name = state_to_enum t.name t.generics)
    (hn : s.name = t.name) (hg : s.generics = t.generics) :
    s.enum_name = t.enum_name
  ∧ (ts.filter fun trans => trans.src.enum_name == s.enum_name)
      = (ts.filter fun trans => trans.src.enum_name == t.enum_name) := by
  have he : s.enum_name = t.enum_name := by rw [hs, ht, hn, hg]
  exact ⟨he, by rw [he]⟩

/-- Witness for C6 (amended) at concrete states. -/
theorem c6_rendering_determines_matching_witness :
    fooBarGenS.enum_name = fooBarGenS.enum_name
  ∧ ([({ src := fooBarFlatS, dst := fooBarGenS } : TransitionS)].filter
        fun trans => trans.src.enum_name == fooBarGenS.enum_name)
      = ([({ src := fooBarFlatS, dst := fooBarGenS } : TransitionS)].filter
        fun trans => trans.src.enum_name == fooBarGenS.enum_name) :=
  c6_rendering_determines_matching fooBarGenS fooBarGenS
    [{ src := fooBarFlatS, dst := fooBarGenS }] (by decide) (by decide) rfl rfl

/-- C7: the synthesized variant identifier equals the base name, followed by
the PascalCase conversion of the rendered type-parameter text with the
characters apostrophe `<` `>` `&` `,` `[` `]` and spaces removed, followed by
the fixed suffix `State`; a StateRef without parameters yields base name plus
`State`; and the mapping is a pure deterministic function of the rendering. -/
theorem c7_variant_id (name t : String) (g1 g2 : Option String) (hg : g1 = g2) :
    state_to_enum name (some t)
      = name ++ toPascal (String.mk (t.data.filter fun c => !(strippedChars.contains c)))
          ++ "State"
  ∧ state_to_enum name none = name ++ "State"
  ∧ state_to_enum name g1 = state_to_enum name g2 := by
  refine ⟨?_, by simp [state_to_enum], by rw [hg]⟩
  simp only [state_to_enum, stripArgChars_eq_filter]

/-- Witness for C7 at a concrete StateRef. -/
theorem c7_variant_id_witness :
    state_to_enum "Move" (some "< Up >")
      = "Move" ++ toPascal (String.mk ("< Up >".data.filter
            fun c => !(strippedChars.contains c))) ++ "State"
  ∧ state_to_enum "Move" none = "Move" ++ "State" :=
  ⟨(c7_variant_id "Move" "< Up >" none none rfl).1,
   (c7_variant_id "Move" "< Up >" none none rfl).2.1⟩

/-- C8: `Transition::parse` accepts exactly the tokens `=` `>` between the two
state identifiers.  For every separating punct sequence (containing no
identifier — which would change which StateRefs the input contains — and not
starting with `<` — which would extend the source StateRef's parameter
list), the parse of the full input succeeds iff the separator is `=` `>`; in
particular the arrow `->` of the grammar sketch fails. -/
theorem c8_arrow_required (s d : String) (sep : List Tok)
    (hid : ∀ x, Tok.ident x ∉ sep) (hlt : sep.head? ≠ some Tok.lt) :
    (parseTransitionComplete (Tok.ident s :: (sep ++ [Tok.ident d]))).isSome = true
      ↔ sep = [Tok.eq, Tok.gt] := by
  rcases sep with _ | ⟨t1, sep1⟩
  · simp [parseTransitionComplete, parseTransition, parseState]
  · cases t1 with
    | ident x => exact absurd (List.mem_cons_self _ _) (hid x)
    | lt => exact absurd rfl hlt
    | gt => simp [parseTransitionComplete, parseTransition, parseState]
    | minus => simp [parseTransitionComplete, parseTransition, parseState]
    | comma => simp [parseTransitionComplete, parseTransition, parseState]
    | group ts => simp [parseTransitionComplete, parseTransition, parseState]
    | eq =>
      rcases sep1 with _ | ⟨t2, sep2⟩
      · simp [parseTransitionComplete, parseTransition, parseState]
      · cases t2 with
        | ident x => exact absurd (by simp) (hid x)
        | lt => simp [parseTransitionComplete, parseTransition, parseState]
        | eq => simp [parseTransitionComplete, parseTransition, parseState]
        | minus => simp [parseTransitionComplete, parseTransition, parseState]
        | comma => simp [parseTransitionComplete, parseTransition, parseState]
        | group ts => simp [parseTransitionComplete, parseTransition, parseState]
        | gt =>
          rcases sep2 with _ | ⟨t3, sep3⟩
          · simp [parseTransitionComplete, parseTransition, parseState]
          · cases t3 with
            | ident x => exact absurd (by simp) (hid x)
            | lt => simp [parseTransitionComplete, parseTransition, parseState]
            | gt => simp [parseTransitionComplete, parseTransition, parseState]
            | eq => simp [parseTransitionComplete, parseTransition, parseState]
            | minus => simp [parseTransitionComplete, parseTransition, parseState]
            | comma => simp [parseTransitionComplete, parseTransition, parseState]
            | group ts => simp [parseTransitionComplete, parseTransition, parseState]

/-- Witness for C8: the arrow `=` `>` succeeds and the arrow `-` `>` fails,
at concrete inputs. -/
theorem c8_arrow_required_witness :
    (parseTransitionComplete [Tok.ident "Foo", Tok.eq, Tok.gt, Tok.ident "Bar"]).isSome
      = true
  ∧ ¬ ((parseTransitionComplete
        [Tok.ident "Foo", Tok.minus, Tok.gt, Tok.ident "Bar"]).isSome = true) :=
  ⟨(c8_arrow_required "Foo" "Bar" [Tok.eq, Tok.gt]
      (fun x => by simp) (by simp)).mpr rfl,
   fun h => by
     have hc := (c8_arrow_required "Foo" "Bar" [Tok.minus, Tok.gt]
       (fun x => by simp) (by simp)).mp h
     simp at hc⟩

/-- C9: pushing a message while the bound state is not the active variant
fails with `StateIsNotActive` carrying the original message unchanged and
leaves the machine unmodified; pushing while the bound state is active
forwards the message to its receive capability and succeeds. -/
theorem c9_push_message [DecidableEq V] (bound : V) (receive : D → Msg → D)
    (m : Sfsm V D) (msg : Msg) :
    (m.variant ≠ bound →
      push_message bound receive m msg
        = (m, Except.error (MessageError.StateIsNotActive msg)))
  ∧ (m.variant = bound →
      push_message bound receive m msg
        = ({ m with data := receive m.data msg }, Except.ok ())) := by
  constructor <;> intro h <;> simp [push_message, h]

/-- Witness for C9 at a concrete machine: push to the inactive and to the
active bound state. -/
theorem c9_push_message_witness :
    push_message false (fun (d m : Nat) => d + m) (Sfsm.new true 0) 7
      = (Sfsm.new true 0, Except.error (MessageError.StateIsNotActive 7))
  ∧ push_message true (fun (d m : Nat) => d + m) (Sfsm.new true 0) 7
      = ({ Sfsm.new true 0 with data := 7 }, Except.ok ()) :=
  ⟨(c9_push_message false (fun d m => d + m) (Sfsm.new true 0) 7).1 (by decide),
   (c9_push_message true (fun d m => d + m) (Sfsm.new true 0) 7).2 rfl⟩

/-- C10: the default implementations of the fallible lifecycle hooks of
`TryState` and `TryTransition` all return `Ok(())` without touching the
state, and can therefore never produce an error (and so never by themselves
trigger the error-state transition of the fallible dispatcher). -/
theorem c10_try_defaults (S E : Type) (s : S) :
    TryState.try_entry S E s = (s, Except.ok ())
  ∧ TryState.try_execute S E s = (s, Except.ok ())
  ∧ TryState.try_exit S E s = (s, Except.ok ())
  ∧ TryTransition.try_entry S E s = (s, Except.ok ())
  ∧ TryTransition.try_execute S E s = (s, Except.ok ())
  ∧ TryTransition.try_exit S E s = (s, Except.ok ())
  ∧ ∀ e : E, (TryState.try_entry S E s).2 ≠ Except.error e
      ∧ (TryState.try_execute S E s).2 ≠ Except.error e
      ∧ (TryState.try_exit S E s).2 ≠ Except.error e
      ∧ (TryTransition.try_entry S E s).2 ≠ Except.error e
      ∧ (TryTransition.try_execute S E s).2 ≠ Except.error e
      ∧ (TryTransition.try_exit S E s).2 ≠ Except.error e := by
  refine ⟨rfl, rfl, rfl, rfl, rfl, rfl, fun e => ?_⟩
  refine ⟨?_, ?_, ?_, ?_, ?_, ?_⟩ <;> intro h <;> exact Except.noConfusion h

/-- Witness for C10 at a concrete state value and error type. -/
theorem c10_try_defaults_witness :
    TryState.try_entry Nat Nat 3 = (3, Except.ok ())
  ∧ (TryState.try_entry Nat Nat 3).2 ≠ Except.error 5 :=
  ⟨(c10_try_defaults Nat Nat 3).1,
   ((c10_try_defaults Nat Nat 3).2.2.2.2.2.2 5).1⟩
